import Mathlib

/-!
# Verification of the agenticSeek run-orchestration spec against the code

Shallow embedding of the agenticSeek frontend (`App.js`, `DockTabs.js`) and,
where the backend implementation is not part of the sources, models built
from the specification's own words (each such definition is marked
`Modelled from the spec:` in its doc comment).
-/

set_option autoImplicit false

namespace AgenticSeek

/-! ## Trace sink (spec §4.6)

Modelled from the spec: the backend trace sink (`api.py` /
`sources/trace_sink.py` per the change log) is not among the sources; the
definitions below follow §4.6 literally: `append` assigns the next monotonic
id for the run starting at 1 and appends the event; `read` returns the
events with `id > since_id`, up to `limit`, plus `next_since_id` (the id to
use on the next call) and `latest_id`. -/

structure TraceEvent where
  id : Nat
  kind : String
  fields : List (String × String)
  deriving Repr, DecidableEq

structure TraceLog where
  events : List TraceEvent
  deriving Repr, DecidableEq

def TraceLog.empty : TraceLog := ⟨[]⟩

/-- Modelled from the spec: `append(run_id, event_kind, fields) -> event_id`;
"Append assigns the next id for that run (monotonic, starts at 1)". -/
def TraceLog.append (log : TraceLog) (kind : String)
    (fields : List (String × String)) : TraceLog × Nat :=
  let eid := log.events.length + 1
  (⟨log.events ++ [⟨eid, kind, fields⟩]⟩, eid)

structure ReadResult where
  events : List TraceEvent
  next_since_id : Nat
  latest_id : Nat
  deriving Repr, DecidableEq

/-- Modelled from the spec: `read(run_id, since_id, limit)` — "callers pass
the last id they have seen (`since_id`) and receive events with
id > since_id, up to `limit`, plus the id to use on the next call". -/
def TraceLog.read (log : TraceLog) (since_id limit : Nat) : ReadResult :=
  let evs := (log.events.filter (fun e => since_id < e.id)).take limit
  { events := evs
    next_since_id := match evs.getLast? with
      | some e => e.id
      | none => since_id
    latest_id := log.events.length }

/-- Trace logs reachable from the empty log by `append` calls (the
single-writer discipline of §5). -/
inductive TraceLog.Built : TraceLog → Prop
  | nil : TraceLog.Built TraceLog.empty
  | app (log : TraceLog) (kind : String) (fields : List (String × String)) :
      TraceLog.Built log → TraceLog.Built (log.append kind fields).1

/-- Client cursor update from `App.js` `fetchActivity`:
`if (typeof data.next_since_id === "number") setActivitySinceId(data.next_since_id)`.
`none` models a response without a numeric `next_since_id`. -/
def updateCursor (activitySinceId : Nat) (next : Option Nat) : Nat :=
  next.getD activitySinceId

theorem built_ids_positional (log : TraceLog) (h : TraceLog.Built log) :
    log.events.map (·.id) = List.range' 1 log.events.length := by
  induction h with
  | nil => rfl
  | app log kind fields _ ih =>
    simp only [TraceLog.append, List.map_append, List.length_append, ih]
    simp [List.range'_concat, Nat.add_comm]

theorem built_filter_eq_drop (log : TraceLog) (h : TraceLog.Built log) (s : Nat) :
    log.events.filter (fun e => s < e.id) = log.events.drop s := by
  induction h with
  | nil => simp [TraceLog.empty]
  | app log kind fields hb ih =>
    have hids := built_ids_positional log hb
    simp only [TraceLog.append, List.filter_append, ih]
    by_cases hs : s < log.events.length + 1
    · have hdrop : (log.events ++
          [(⟨log.events.length + 1, kind, fields⟩ : TraceEvent)]).drop s =
          log.events.drop s ++ [(⟨log.events.length + 1, kind, fields⟩ : TraceEvent)] :=
        List.drop_append_of_le_length (by omega)
      rw [hdrop]
      simp [hs]
    · -- s ≥ length + 1 : both sides are empty
      have hfilter : log.events.filter (fun e => s < e.id) = [] := by
        rw [List.filter_eq_nil_iff]
        intro e he
        have : e.id ∈ log.events.map (·.id) := List.mem_map_of_mem _ he
        rw [hids] at this
        have := List.mem_range'.mp this
        simp only [decide_eq_true_eq]
        omega
      rw [ih] at hfilter
      rw [hfilter]
      have h2 : (log.events ++
          [(⟨log.events.length + 1, kind, fields⟩ : TraceEvent)]).drop s = [] := by
        apply List.drop_eq_nil_of_le
        simp
        omega
      rw [h2]
      simp [hs]

theorem range'_drop_aux : ∀ (i n s : Nat),
    (List.range' s n).drop i = List.range' (s + i) (n - i) := by
  intro i
  induction i with
  | zero => intro n s; simp
  | succ i ih =>
    intro n s
    cases n with
    | zero => simp
    | succ m =>
      rw [List.range'_succ, List.drop_succ_cons, ih m (s + 1)]
      congr 1 <;> omega

theorem range'_take_aux : ∀ (i n s : Nat),
    (List.range' s n).take i = List.range' s (min i n) := by
  intro i
  induction i with
  | zero => intro n s; simp
  | succ i ih =>
    intro n s
    cases n with
    | zero => simp
    | succ m =>
      rw [List.range'_succ, List.take_succ_cons, ih m (s + 1)]
      rw [show min (i + 1) (m + 1) = min i m + 1 by omega, List.range'_succ]

theorem read_events_eq (log : TraceLog) (h : TraceLog.Built log) (s l : Nat) :
    (log.read s l).events = (log.events.drop s).take l := by
  simp [TraceLog.read, built_filter_eq_drop log h s]

theorem read_ids (log : TraceLog) (h : TraceLog.Built log) (s l : Nat) :
    (log.read s l).events.map (·.id)
      = List.range' (s + 1) (min l (log.events.length - s)) := by
  rw [read_events_eq log h, List.map_take, List.map_drop,
    built_ids_positional log h, range'_drop_aux, range'_take_aux]
  congr 1
  omega

theorem next_since_id_def (log : TraceLog) (s l : Nat) :
    (log.read s l).next_since_id = (match (log.read s l).events.getLast? with
      | some e => e.id
      | none => s) := rfl

theorem read_next_since_id (log : TraceLog) (h : TraceLog.Built log) (s l : Nat) :
    (log.read s l).next_since_id = s + min l (log.events.length - s) := by
  have hids := read_ids log h s l
  rcases hk : min l (log.events.length - s) with _ | j
  · have hlen : (log.read s l).events.length = 0 := by
      have := congrArg List.length hids
      simp only [List.length_map, List.length_range'] at this
      omega
    have hempty : (log.read s l).events = [] :=
      List.eq_nil_of_length_eq_zero hlen
    rw [next_since_id_def, hempty]
    simp
  · -- nonempty read: last returned id is s + (j + 1)
    rw [hk] at hids
    have hlast : ((log.read s l).events.map (·.id)).getLast? = some (s + (j + 1)) := by
      rw [hids, List.range'_concat]
      rw [List.getLast?_concat]
      congr 1
      omega
    rw [List.getLast?_map] at hlast
    rcases hl : (log.read s l).events.getLast? with _ | e
    · rw [hl] at hlast; simp at hlast
    · rw [hl] at hlast
      simp only [Option.map_some'] at hlast
      have heid : e.id = s + (j + 1) := by
        injection hlast
      rw [next_since_id_def, hl]
      exact heid

/-- C1: for every run (trace log built by appends) and every poll, trace
event ids form a contiguous strictly increasing sequence starting at 1, and
a poll with `since_id = s` receives exactly the events with id `s+1 .. s+k`
(`k = min limit (latest - s)`) — never an already-seen event, never a
skipped one — with `next_since_id = s + k`; the client cursor
(`fetchActivity` in `App.js`) is advanced to exactly that `next_since_id`. -/
theorem trace_cursor_contiguous_roundtrip (log : TraceLog)
    (h : TraceLog.Built log) (s l : Nat) :
    (∀ i (hi : i < log.events.length), (log.events.get ⟨i, hi⟩).id = i + 1)
    ∧ (log.read s l).events.map (·.id)
        = List.range' (s + 1) (min l (log.events.length - s))
    ∧ (log.read s l).next_since_id = s + min l (log.events.length - s)
    ∧ updateCursor s (some (log.read s l).next_since_id)
        = s + min l (log.events.length - s) := by
  refine ⟨?_, read_ids log h s l, read_next_since_id log h s l, ?_⟩
  · intro i hi
    have hids := built_ids_positional log h
    have h2 : (log.events.map (·.id))[i]? = some (1 + i) := by
      rw [hids]
      simp [List.getElem?_range', hi]
    rw [List.getElem?_map, List.getElem?_eq_getElem hi] at h2
    simp only [Option.map_some'] at h2
    have h3 := Option.some.inj h2
    simp only [List.get_eq_getElem, Fin.val_mk]
    omega
  · simp [updateCursor, read_next_since_id log h s l]

/-- Concrete two-event trace log used by the C1 witness. -/
def exLog : TraceLog :=
  ((TraceLog.empty.append "plan_step" []).1.append "print" []).1

theorem exLog_built : TraceLog.Built exLog :=
  TraceLog.Built.app _ _ _ (TraceLog.Built.app _ _ _ TraceLog.Built.nil)

/-- C1 witness: on a concrete two-event log, a poll with `since_id = 1`
returns exactly the event with id 2 and advances the cursor to 2. -/
theorem trace_cursor_contiguous_roundtrip_witness :
    (exLog.read 1 200).events.map (·.id) = [2]
      ∧ updateCursor 1 (some ((exLog.read 1 200)).next_since_id) = 2 := by
  have h := trace_cursor_contiguous_roundtrip exLog exLog_built 1 200
  refine ⟨?_, ?_⟩
  · rw [h.2.1]
    decide
  · rw [h.2.2.2]
    decide

/-! ## `formatScore` (`App.js` lines 99–105) -/

/-- A JavaScript value as it can reach `formatScore` via `s.relevancy_score`:
`null`, `undefined`, or a number (NaN, ±Infinity, or a finite value modelled
as a rational). -/
inductive JsVal where
  | null
  | undefined
  | nan
  | posInf
  | negInf
  | fin (q : ℚ)

/-- `Math.max(0, Math.min(1, n))` from `formatScore`. -/
def clamp01 (q : ℚ) : ℚ := max 0 (min 1 q)

/-- JavaScript `c.toFixed(2)`: two-decimal rendering. Rounding is
nearest-with-ties-up, which agrees with `toFixed` on the nonnegative values
`formatScore` feeds it. -/
def toFixed2 (q : ℚ) : String :=
  let n : ℤ := round (q * 100)
  let ip := n / 100
  let fp := (n % 100).toNat
  toString ip ++ "." ++ (if fp < 10 then "0" else "") ++ toString fp

/-- From `App.js`: returns `""` for `null`/`undefined` and for any `n` with
`!Number.isFinite(n)`; otherwise renders the clamped value. -/
def formatScore (v : JsVal) : String :=
  match v with
  | .null => ""
  | .undefined => ""
  | .nan => ""
  | .posInf => ""
  | .negInf => ""
  | .fin q => toFixed2 (clamp01 q)

/-- C8: `formatScore` returns the empty string when its argument is `null`,
`undefined` or not a finite number, and otherwise the two-decimal rendering
of the value clamped into `[0,1]`; the clamped value always lies in
`[0,1]`, so every score the UI renders is within `[0,1]`. -/
theorem formatScore_unit_interval :
    formatScore .null = "" ∧ formatScore .undefined = ""
    ∧ formatScore .nan = "" ∧ formatScore .posInf = ""
    ∧ formatScore .negInf = ""
    ∧ ∀ q : ℚ, formatScore (.fin q) = toFixed2 (clamp01 q)
        ∧ 0 ≤ clamp01 q ∧ clamp01 q ≤ 1 := by
  refine ⟨rfl, rfl, rfl, rfl, rfl, fun q => ⟨rfl, le_max_left 0 _, ?_⟩⟩
  exact max_le (by norm_num) (min_le_left 1 q)

/-! ## Activity feed cap (`App.js` `fetchActivity`, lines 752–783) -/

structure ActivityItem where
  ts : String
  event : String
  text : String
  kind : String
  badge : String
  deriving DecidableEq

/-- `fetchActivity` requests `params.set("limit", "200")`. -/
def activityPollLimit : Nat := 200

/-- Feed update from `fetchActivity`: when there are new displayable items,
`merged.slice(Math.max(0, merged.length - 200))` keeps the most recent 200
(`Nat` subtraction models `Math.max(0, ·)`); otherwise the feed is
untouched. -/
def mergeActivityFeed (prev newItems : List ActivityItem) : List ActivityItem :=
  if 0 < newItems.length then
    let merged := prev ++ newItems
    merged.drop (merged.length - 200)
  else prev

/-- C9: each poll requests at most 200 events (`limit = 200`, and a trace
read honours the limit), and after merging new items into the feed at most
the 200 most recent entries are kept, the oldest dropped first (the result
is a suffix of `prev ++ newItems`). -/
theorem activity_feed_capped (prev newItems : List ActivityItem)
    (hprev : prev.length ≤ 200) :
    activityPollLimit = 200
    ∧ (∀ (log : TraceLog) (s : Nat),
        (log.read s activityPollLimit).events.length ≤ 200)
    ∧ (mergeActivityFeed prev newItems).length ≤ 200
    ∧ (mergeActivityFeed prev newItems).IsSuffix (prev ++ newItems) := by
  refine ⟨rfl, ?_, ?_, ?_⟩
  · intro log s
    have : (log.read s activityPollLimit).events.length
        ≤ activityPollLimit := by
      simp only [TraceLog.read, List.length_take]
      exact min_le_left _ _
    simpa [activityPollLimit] using this
  · unfold mergeActivityFeed
    split
    · simp only [List.length_drop]
      omega
    · exact hprev
  · unfold mergeActivityFeed
    split
    · exact List.drop_suffix _ _
    · rename_i hn
      have : newItems = [] := by
        rw [← List.length_eq_zero]
        omega
      rw [this, List.append_nil]

/-- C9 witness: merging one new item into an empty feed keeps at most 200
entries, obtained from the capping theorem at a concrete input. -/
theorem activity_feed_capped_witness :
    (mergeActivityFeed [] [⟨"t", "print", "x", "print", "LOG"⟩]).length ≤ 200 :=
  (activity_feed_capped [] [⟨"t", "print", "x", "print", "LOG"⟩]
    (by simp)).2.2.1

/-! ## Pane resizing (`DockTabs.js`, `MultiResizableLayout`) -/

/-- `const clamp = (n, lo, hi) => Math.max(lo, Math.min(hi, n));` -/
def clamp (n lo hi : ℚ) : ℚ := max lo (min hi n)

/-- `handleMouseMove` of `MultiResizableLayout` (lines 137–159): widths in
percent at drag start `startW`, handle index `dragIdx` (between panes
`dragIdx` and `dragIdx + 1`), and mouse displacement `dxPct` in percent of
the container width. -/
def handleMouseMove (startW : List ℚ) (dragIdx : Nat)
    (dxPct minPaneWidthPct : ℚ) : List ℚ :=
  let left := startW.getD dragIdx 0
  let right := startW.getD (dragIdx + 1) 0
  let total := left + right
  let newLeft := clamp (left + dxPct) minPaneWidthPct (total - minPaneWidthPct)
  let newRight := total - newLeft
  (startW.set dragIdx newLeft).set (dragIdx + 1) newRight

/-- C10: a drag-resize step at handle `i` changes only panes `i` and
`i + 1`, preserves the sum of the two affected widths, and — whenever that
sum is at least `2 * minPaneWidthPct` — leaves both widths at least
`minPaneWidthPct`. -/
theorem resize_frame_effect (startW : List ℚ) (i : Nat) (dx minP : ℚ)
    (hi : i + 1 < startW.length) :
    (handleMouseMove startW i dx minP).length = startW.length
    ∧ (∀ j, j ≠ i → j ≠ i + 1 →
        (handleMouseMove startW i dx minP).getD j 0 = startW.getD j 0)
    ∧ (handleMouseMove startW i dx minP).getD i 0
        + (handleMouseMove startW i dx minP).getD (i + 1) 0
        = startW.getD i 0 + startW.getD (i + 1) 0
    ∧ (2 * minP ≤ startW.getD i 0 + startW.getD (i + 1) 0 →
        minP ≤ (handleMouseMove startW i dx minP).getD i 0
        ∧ minP ≤ (handleMouseMove startW i dx minP).getD (i + 1) 0) := by
  have hii : i < startW.length := by omega
  have hlen : (handleMouseMove startW i dx minP).length = startW.length := by
    simp [handleMouseMove]
  have hget_i : (handleMouseMove startW i dx minP).getD i 0
      = clamp (startW.getD i 0 + dx) minP
          (startW.getD i 0 + startW.getD (i + 1) 0 - minP) := by
    simp only [handleMouseMove, List.getD_eq_getElem?_getD]
    rw [List.getElem?_set_ne (by omega), List.getElem?_set_self hii]
    simp [List.getElem?_eq_getElem hii]
  have hget_i1 : (handleMouseMove startW i dx minP).getD (i + 1) 0
      = startW.getD i 0 + startW.getD (i + 1) 0
        - clamp (startW.getD i 0 + dx) minP
            (startW.getD i 0 + startW.getD (i + 1) 0 - minP) := by
    simp only [handleMouseMove, List.getD_eq_getElem?_getD]
    rw [List.getElem?_set_self (by simpa using hi)]
    simp [List.getElem?_eq_getElem hii]
  refine ⟨hlen, ?_, ?_, ?_⟩
  · intro j hj hj1
    simp only [handleMouseMove, List.getD_eq_getElem?_getD]
    rw [List.getElem?_set_ne (by omega), List.getElem?_set_ne (by omega)]
  · rw [hget_i, hget_i1]
    ring
  · intro hsum
    rw [hget_i, hget_i1]
    constructor
    · exact le_max_left _ _
    · have hcl : clamp (startW.getD i 0 + dx) minP
          (startW.getD i 0 + startW.getD (i + 1) 0 - minP)
          ≤ startW.getD i 0 + startW.getD (i + 1) 0 - minP :=
        max_le (by linarith) (min_le_left _ _)
      linarith

/-- C10 witness: on start widths `[50, 50]` with `minPaneWidthPct = 15` and
a drag of `+10`, the two pane widths still sum to 100 and both stay at
least 15. -/
theorem resize_frame_effect_witness :
    (handleMouseMove [50, 50] 0 10 15).getD 0 0
        + (handleMouseMove [50, 50] 0 10 15).getD 1 0 = 100
    ∧ 15 ≤ (handleMouseMove [50, 50] 0 10 15).getD 0 0 := by
  have h := resize_frame_effect [50, 50] 0 10 15 (by norm_num)
  constructor
  · have := h.2.2.1
    rw [this]
    norm_num [List.getD]
  · exact (h.2.2.2 (by norm_num [List.getD])).1

/-! ## Verifier bounded improving-retry loop (spec §4.5)

Modelled from the spec: the backend Verifier is not among the sources. Per
§4.5: at most 6 attempts per step/run; after each rejected attempt the new
output is compared against the best-so-far by a similarity/quality
heuristic (modelled as an abstract integer-valued quality proxy, `score`);
a retry is only authorized if the attempt improves on the previous best,
and two consecutive non-improving attempts stop retries early (fail-fast);
on exhaustion or fail-fast the best-scoring attempt is kept. -/

def retryBudget : Nat := 6

structure VerifierResult where
  attemptsUsed : Nat
  keptIdx : Nat
  keptScore : ℤ
  accepted : Bool
  deriving Repr, DecidableEq

/-- Modelled from the spec: the retry phase of the Verifier loop. `fuel` is
the remaining attempt budget, `used` the attempts already executed,
`(bIdx, bScore)` the best-scoring attempt so far, and `nonImp` the count of
consecutive non-improving attempts (two of them stop retries). -/
def verifierRetry (score : Nat → ℤ) (accept : Nat → Bool) :
    Nat → Nat → Nat → ℤ → Nat → VerifierResult
  | 0, used, bIdx, bScore, _ => ⟨used, bIdx, bScore, false⟩
  | fuel + 1, used, bIdx, bScore, nonImp =>
    if 2 ≤ nonImp then ⟨used, bIdx, bScore, false⟩
    else if accept (used + 1) then
      ⟨used + 1, used + 1, score (used + 1), true⟩
    else if bScore < score (used + 1) then
      verifierRetry score accept fuel (used + 1) (used + 1) (score (used + 1)) 0
    else
      verifierRetry score accept fuel (used + 1) bIdx bScore (nonImp + 1)

/-- Modelled from the spec: the full Verifier loop; attempt 1 always runs,
then retries are bounded by `retryBudget` and the improvement policy. -/
def verifierRun (score : Nat → ℤ) (accept : Nat → Bool) : VerifierResult :=
  if accept 1 then ⟨1, 1, score 1, true⟩
  else verifierRetry score accept (retryBudget - 1) 1 1 (score 1) 0

/-- Best score among attempts `1 .. n` (the "best so far" of §4.5). -/
def runningBest (score : Nat → ℤ) : Nat → ℤ
  | 0 => score 1
  | n + 1 => max (runningBest score n) (score (n + 1))

theorem verifierRetry_used_le (score : Nat → ℤ) (accept : Nat → Bool) :
    ∀ (fuel used bIdx : Nat) (bScore : ℤ) (nonImp : Nat),
      (verifierRetry score accept fuel used bIdx bScore nonImp).attemptsUsed
        ≤ used + fuel := by
  intro fuel
  induction fuel with
  | zero => intro used bIdx bScore nonImp; simp [verifierRetry]
  | succ fuel ih =>
    intro used bIdx bScore nonImp
    unfold verifierRetry
    split
    · simp
    · split
      · simp
      · split
        · exact le_trans (ih _ _ _ _) (by omega)
        · exact le_trans (ih _ _ _ _) (by omega)

theorem verifierRetry_best_kept (score : Nat → ℤ) (accept : Nat → Bool) :
    ∀ (fuel used bIdx : Nat) (bScore : ℤ) (nonImp : Nat),
      bScore = score bIdx → 1 ≤ bIdx → bIdx ≤ used →
      (∀ i, 1 ≤ i → i ≤ used → score i ≤ bScore) →
      used ≤ (verifierRetry score accept fuel used bIdx bScore nonImp).attemptsUsed
      ∧ ((verifierRetry score accept fuel used bIdx bScore nonImp).accepted = false →
          (verifierRetry score accept fuel used bIdx bScore nonImp).keptScore
            = score (verifierRetry score accept fuel used bIdx bScore nonImp).keptIdx
          ∧ 1 ≤ (verifierRetry score accept fuel used bIdx bScore nonImp).keptIdx
          ∧ (verifierRetry score accept fuel used bIdx bScore nonImp).keptIdx
              ≤ (verifierRetry score accept fuel used bIdx bScore nonImp).attemptsUsed
          ∧ ∀ i, 1 ≤ i →
              i ≤ (verifierRetry score accept fuel used bIdx bScore nonImp).attemptsUsed →
              score i ≤ (verifierRetry score accept fuel used bIdx bScore nonImp).keptScore) := by
  intro fuel
  induction fuel with
  | zero =>
    intro used bIdx bScore nonImp hb h1 h2 h3
    simp only [verifierRetry]
    exact ⟨le_refl _, fun _ => ⟨hb, h1, h2, h3⟩⟩
  | succ fuel ih =>
    intro used bIdx bScore nonImp hb h1 h2 h3
    unfold verifierRetry
    split
    · exact ⟨le_refl _, fun _ => ⟨hb, h1, h2, h3⟩⟩
    · split
      · simp
      · rename_i hacc
        split
        · rename_i himp
          have := ih (used + 1) (used + 1) (score (used + 1)) 0 rfl (by omega)
            (le_refl _) ?_
          · exact ⟨by omega, this.2⟩
          · intro i hi1 hi2
            rcases Nat.lt_or_ge i (used + 1) with h | h
            · exact le_trans (h3 i hi1 (by omega)) (le_of_lt himp)
            · have : i = used + 1 := by omega
              rw [this]
        · rename_i himp
          have hs : score (used + 1) ≤ bScore := by omega
          have := ih (used + 1) bIdx bScore (nonImp + 1) hb h1 (by omega) ?_
          · exact ⟨by omega, this.2⟩
          · intro i hi1 hi2
            rcases Nat.lt_or_ge i (used + 1) with h | h
            · exact h3 i hi1 (by omega)
            · have : i = used + 1 := by omega
              rw [this]
              exact hs

theorem verifierRetry_stop_on_two (score : Nat → ℤ) (accept : Nat → Bool) :
    ∀ (fuel used bIdx : Nat) (bScore : ℤ) (nonImp : Nat), 2 ≤ nonImp →
      (verifierRetry score accept fuel used bIdx bScore nonImp).attemptsUsed
        = used := by
  intro fuel
  cases fuel with
  | zero => intro used bIdx bScore nonImp _; simp [verifierRetry]
  | succ fuel =>
    intro used bIdx bScore nonImp h
    unfold verifierRetry
    simp [h]

theorem verifierRetry_stop_after_nonimp (score : Nat → ℤ) (accept : Nat → Bool)
    (hacc : ∀ i, accept i = false) :
    ∀ (fuel used bIdx : Nat) (bScore : ℤ) (nonImp : Nat), 1 ≤ nonImp →
      score (used + 1) ≤ bScore →
      (verifierRetry score accept fuel used bIdx bScore nonImp).attemptsUsed
        ≤ used + 1 := by
  intro fuel
  cases fuel with
  | zero => intro used bIdx bScore nonImp _ _; simp [verifierRetry]
  | succ fuel =>
    intro used bIdx bScore nonImp h1 h2
    unfold verifierRetry
    split
    · simp
    · rw [hacc (used + 1)]
      simp only [Bool.false_eq_true, if_false]
      split
      · omega
      · rw [verifierRetry_stop_on_two score accept fuel (used + 1) bIdx bScore
          (nonImp + 1) (by omega)]

theorem verifierRetry_fail_fast (score : Nat → ℤ) (accept : Nat → Bool)
    (hacc : ∀ i, accept i = false) (k : Nat)
    (hk1 : score (k + 1) ≤ runningBest score k)
    (hk2 : score (k + 2) ≤ runningBest score (k + 1)) :
    ∀ (fuel used bIdx : Nat) (bScore : ℤ) (nonImp : Nat),
      bScore = runningBest score used → used ≤ k →
      (verifierRetry score accept fuel used bIdx bScore nonImp).attemptsUsed
        ≤ k + 2 := by
  intro fuel
  induction fuel with
  | zero => intro used bIdx bScore nonImp _ hu; simp [verifierRetry]; omega
  | succ fuel ih =>
    intro used bIdx bScore nonImp hb hu
    unfold verifierRetry
    split
    · simp; omega
    · rw [hacc (used + 1)]
      simp only [Bool.false_eq_true, if_false]
      split
      · rename_i himp
        -- improving attempt: `used + 1 ≤ k`, else it would contradict hk1
        have husedk : used < k := by
          rcases Nat.lt_or_ge used k with h | h
          · exact h
          · exfalso
            have : used = k := by omega
            rw [this] at hb himp
            rw [← hb] at hk1
            omega
        have hb' : score (used + 1) = runningBest score (used + 1) := by
          rw [runningBest, ← hb]
          omega
        exact ih (used + 1) (used + 1) (score (used + 1)) 0 hb' (by omega)
      · rename_i himp
        have hs : score (used + 1) ≤ bScore := by omega
        have hb' : bScore = runningBest score (used + 1) := by
          rw [runningBest, ← hb]
          omega
        rcases Nat.lt_or_ge used k with h | h
        · exact ih (used + 1) bIdx bScore (nonImp + 1) hb' (by omega)
        · -- used = k: attempt k+1 was non-improving; attempt k+2 is too,
          -- so the loop stops at k+2 at the latest
          have hused : used = k := by omega
          subst hused
          have hs2 : score (used + 1 + 1) ≤ bScore := by
            rw [hb']
            exact hk2
          have := verifierRetry_stop_after_nonimp score accept hacc fuel
            (used + 1) bIdx bScore (nonImp + 1) (by omega) hs2
          omega

/-- C2: the Verifier (§4.5 retry loop) authorizes at most 6 attempts; when
no attempt is accepted, the kept result is the best-scoring attempt seen
(never a worse one); and two consecutive non-improving attempts (attempts
`k+1` and `k+2` not beating the best so far) stop retries at attempt `k+2`
at the latest — for `k + 2 < 6`, strictly before the budget is
exhausted. -/
theorem verifier_retry_policy (score : Nat → ℤ) (accept : Nat → Bool) :
    (verifierRun score accept).attemptsUsed ≤ retryBudget
    ∧ ((verifierRun score accept).accepted = false →
        (verifierRun score accept).keptScore
          = score (verifierRun score accept).keptIdx
        ∧ 1 ≤ (verifierRun score accept).keptIdx
        ∧ (verifierRun score accept).keptIdx
            ≤ (verifierRun score accept).attemptsUsed
        ∧ ∀ i, 1 ≤ i → i ≤ (verifierRun score accept).attemptsUsed →
            score i ≤ (verifierRun score accept).keptScore)
    ∧ (∀ k, 1 ≤ k → (∀ i, accept i = false) →
        score (k + 1) ≤ runningBest score k →
        score (k + 2) ≤ runningBest score (k + 1) →
        (verifierRun score accept).attemptsUsed ≤ k + 2) := by
  refine ⟨?_, ?_, ?_⟩
  · unfold verifierRun
    split
    · simp [retryBudget]
    · have := verifierRetry_used_le score accept (retryBudget - 1) 1 1 (score 1) 0
      simp only [retryBudget] at this ⊢
      omega
  · unfold verifierRun
    split
    · simp
    · intro hna
      exact (verifierRetry_best_kept score accept (retryBudget - 1) 1 1
        (score 1) 0 rfl (le_refl 1) (le_refl 1)
        (fun i hi1 hi2 => by
          have : i = 1 := by omega
          rw [this])).2 hna
  · intro k hk hacc hk1 hk2
    unfold verifierRun
    rw [hacc 1]
    simp only [Bool.false_eq_true, if_false]
    exact verifierRetry_fail_fast score accept hacc k hk1 hk2
      (retryBudget - 1) 1 1 (score 1) 0 (by simp [runningBest]) hk

/-- C2 witness: with strictly decreasing scores and no acceptance, retries
stop after attempt 3 — strictly inside the budget of 6 — as an instance of
the fail-fast clause at `k = 1`. -/
theorem verifier_retry_policy_witness :
    (verifierRun (fun n => -(n : ℤ)) (fun _ => false)).attemptsUsed ≤ 1 + 2 :=
  (verifier_retry_policy (fun n => -(n : ℤ)) (fun _ => false)).2.2 1
    (by decide) (fun i => rfl) (by decide) (by decide)

/-! ## Task queue (spec §3, §4.1)

Modelled from the spec: the backend Task Queue is not among the sources —
the frontend only calls its HTTP surface (`/query`, `/queue_items`,
`/queue_item/:uid`). Tasks carry a uid, a query, a status and a creation
timestamp; uids are assigned from a counter, which realises the spec's
"globally-unique uid" as freshness with respect to all previously issued
uids. -/

inductive TaskStatus where
  | queued
  | running
  | done
  | failed
  deriving Repr, DecidableEq

structure Task where
  uid : Nat
  query : String
  status : TaskStatus
  created_at : Nat
  deriving Repr, DecidableEq

structure TaskQueue where
  nextUid : Nat
  tasks : List Task
  deriving Repr, DecidableEq

inductive QueueError where
  | InvalidState
  | NotFound
  deriving Repr, DecidableEq

def TaskQueue.findTask (q : TaskQueue) (uid : Nat) : Option Task :=
  q.tasks.find? (fun t => t.uid = uid)

/-- Modelled from the spec: `submit(query, config) -> uid` — "always
succeeds, never blocks on execution"; assigns a fresh uid, timestamps the
Task, and enqueues it with status `queued`. -/
def TaskQueue.submit (q : TaskQueue) (query : String) (now : Nat) :
    TaskQueue × Nat :=
  (⟨q.nextUid + 1, q.tasks ++ [⟨q.nextUid, query, .queued, now⟩]⟩, q.nextUid)

/-- Modelled from the spec: `list() -> [Task]`. -/
def TaskQueue.list (q : TaskQueue) : List Task := q.tasks

/-- Modelled from the spec: `update(uid, patch) -> ok|error` — "fails with
`InvalidState` if Task is not `queued`", "no side effect". -/
def TaskQueue.update (q : TaskQueue) (uid : Nat) (newQuery : String) :
    Except QueueError Unit × TaskQueue :=
  match q.findTask uid with
  | none => (.error .NotFound, q)
  | some t =>
    if t.status = .queued then
      (.ok (), ⟨q.nextUid,
        q.tasks.map (fun x => if x.uid = uid then { x with query := newQuery } else x)⟩)
    else (.error .InvalidState, q)

/-- Modelled from the spec: `delete(uid) -> ok|error` — same `InvalidState`
constraint as `update`. -/
def TaskQueue.delete (q : TaskQueue) (uid : Nat) :
    Except QueueError Unit × TaskQueue :=
  match q.findTask uid with
  | none => (.error .NotFound, q)
  | some t =>
    if t.status = .queued then
      (.ok (), ⟨q.nextUid, q.tasks.filter (fun x => x.uid ≠ uid)⟩)
    else (.error .InvalidState, q)

/-- From `App.js` queue panel (line 2063):
`const canEdit = (item) => item && item.status === "queued";`
(the save/delete buttons and the edit fields are `disabled={!canEdit(it)}`). -/
def canEdit (item : Option Task) : Bool :=
  match item with
  | none => false
  | some it => it.status = TaskStatus.queued

/-- C3: for a Task whose status is no longer `queued`, `update` and
`delete` fail synchronously with `InvalidState` and leave the queue
unchanged, and the queue panel disables editing; while the Task is still
`queued`, the edit is applied and the deletion removes the Task. -/
theorem invalid_state_gate (q : TaskQueue) (uid : Nat) (t : Task)
    (newQuery : String) (hfind : q.findTask uid = some t) :
    (t.status ≠ .queued →
      q.update uid newQuery = (.error .InvalidState, q)
      ∧ q.delete uid = (.error .InvalidState, q)
      ∧ canEdit (q.findTask uid) = false)
    ∧ (t.status = .queued →
      (q.update uid newQuery).1 = .ok ()
      ∧ { t with query := newQuery } ∈ (q.update uid newQuery).2.tasks
      ∧ (q.delete uid).1 = .ok ()
      ∧ (∀ x ∈ (q.delete uid).2.tasks, x.uid ≠ uid)
      ∧ canEdit (q.findTask uid) = true) := by
  have htmem : t ∈ q.tasks := List.mem_of_find?_eq_some hfind
  have htuid : t.uid = uid := by
    have := List.find?_some hfind
    simpa using this
  constructor
  · intro hst
    refine ⟨?_, ?_, ?_⟩
    · simp [TaskQueue.update, hfind, hst]
    · simp [TaskQueue.delete, hfind, hst]
    · simp [canEdit, hfind, hst]
  · intro hst
    refine ⟨?_, ?_, ?_, ?_, ?_⟩
    · simp [TaskQueue.update, hfind, hst]
    · simp only [TaskQueue.update, hfind]
      rw [if_pos hst]
      refine List.mem_map.mpr ⟨t, htmem, ?_⟩
      simp [htuid]
    · simp [TaskQueue.delete, hfind, hst]
    · intro x hx
      simp only [TaskQueue.delete, hfind] at hx
      rw [if_pos hst] at hx
      have := List.of_mem_filter hx
      simpa using this
    · simp [canEdit, hfind, hst]

/-- Concrete queue with a single task that has already started running. -/
def exStartedQueue : TaskQueue := ⟨2, [⟨1, "research cafes", .running, 0⟩]⟩

/-- C3 witness: updating or deleting the already-running task is rejected
with `InvalidState` and leaves the queue unchanged, and the panel disables
editing — an instance of the gate theorem. -/
theorem invalid_state_gate_witness :
    exStartedQueue.update 1 "edited" = (.error .InvalidState, exStartedQueue)
    ∧ exStartedQueue.delete 1 = (.error .InvalidState, exStartedQueue)
    ∧ canEdit (exStartedQueue.findTask 1) = false :=
  (invalid_state_gate exStartedQueue 1 ⟨1, "research cafes", .running, 0⟩
    "edited" (by decide)).1 (by decide)

/-- Freshness invariant of the uid counter: every task's uid was issued
below the counter. -/
def TaskQueue.WF (q : TaskQueue) : Prop := ∀ t ∈ q.tasks, t.uid < q.nextUid

/-- C5: `submit` always returns a uid (as a total function it cannot block
on execution), the uid differs from every previously issued one, the Task
is immediately visible in `list()` with status `queued` and the submitted
query, and the freshness invariant is preserved. -/
theorem submit_fresh_and_visible (q : TaskQueue) (query : String) (now : Nat)
    (hwf : q.WF) :
    (∀ t ∈ q.tasks, t.uid ≠ (q.submit query now).2)
    ∧ (∃ t ∈ (q.submit query now).1.list,
        t.uid = (q.submit query now).2 ∧ t.status = .queued ∧ t.query = query)
    ∧ (q.submit query now).1.WF := by
  refine ⟨?_, ?_, ?_⟩
  · intro t ht
    have := hwf t ht
    simp only [TaskQueue.submit]
    omega
  · refine ⟨⟨q.nextUid, query, .queued, now⟩, ?_, rfl, rfl, rfl⟩
    simp [TaskQueue.submit, TaskQueue.list]
  · intro t ht
    simp only [TaskQueue.submit, TaskQueue.list, List.mem_append,
      List.mem_singleton] at ht
    rcases ht with h | h
    · have := hwf t h
      simp only [TaskQueue.submit]
      omega
    · rw [h]
      simp [TaskQueue.submit]

/-- C5 witness: submitting to the empty queue issues uid 0 and the task is
immediately listed as `queued`, an instance of the submit theorem. -/
theorem submit_fresh_and_visible_witness :
    ∃ t ∈ ((⟨0, []⟩ : TaskQueue).submit "find 3 cafes" 1).1.list,
      t.uid = ((⟨0, []⟩ : TaskQueue).submit "find 3 cafes" 1).2
      ∧ t.status = .queued ∧ t.query = "find 3 cafes" :=
  (submit_fresh_and_visible ⟨0, []⟩ "find 3 cafes" 1
    (fun t ht => by simp [TaskQueue.tasks] at ht)).2.1

/-! ## Amendments (spec §3, §4.2, §4.3) -/

structure PlanStep where
  idx : Nat
  id : String
  title : String
  agent : String
  status : String
  deriving Repr, DecidableEq

/-- Modelled from the spec: the live run context — ordered plan and current
step index (§3 RunContext); only the fields amendments touch are kept. -/
structure RunContext where
  run_id : String
  plan : List PlanStep
  current_step_idx : Nat
  deriving Repr, DecidableEq

inductive AmendError where
  | NoActiveRun
  deriving Repr, DecidableEq

/-- Modelled from the spec (§4.3): "an amendment is spliced into the plan
after the current step and before any steps not yet started, preserving the
relative order of the remainder". -/
def RunContext.insertAmendment (rc : RunContext) (text : String) : RunContext :=
  { rc with plan :=
      rc.plan.take (rc.current_step_idx + 1)
        ++ [⟨rc.current_step_idx + 1, "amendment", text, "amendment", "pending"⟩]
        ++ rc.plan.drop (rc.current_step_idx + 1) }

/-- Modelled from the spec: the Run Coordinator owns at most one live
RunContext (§4.2). -/
structure Coordinator where
  activeRun : Option RunContext
  deriving Repr, DecidableEq

/-- Modelled from the spec: `amend(text) -> ok|error(NoActiveRun)` (§4.2) —
rejected synchronously, with no plan mutation, when nothing is running;
otherwise the amendment is spliced into the live plan. -/
def Coordinator.amend (c : Coordinator) (text : String) :
    Except AmendError Unit × Coordinator :=
  match c.activeRun with
  | none => (.error .NoActiveRun, c)
  | some rc => (.ok (), ⟨some (rc.insertAmendment text)⟩)

structure ChatMessage where
  type : String
  content : String
  deriving Repr, DecidableEq

/-- From `App.js` `handleAmend` (lines 1269–1294): on a success response an
amendment message is appended to the chat; on a "No active run" (or other)
error only an alert is shown and the chat stays unchanged. -/
def handleAmendMessages (messages : List ChatMessage)
    (result : Except AmendError Unit) (amendText : String) : List ChatMessage :=
  match result with
  | .ok _ => messages
      ++ [⟨"amendment", "📝 Added to current run: \"" ++ amendText ++ "\""⟩]
  | .error _ => messages

/-- From `App.js` lines 1518–1531: the amend button is rendered only inside
`isGenerating && (...)`. -/
def amendButtonShown (isGenerating : Bool) : Bool := isGenerating

/-- C4: an amendment submitted while no run is active returns `NoActiveRun`,
mutates no plan, and appends no amendment message to the chat (and the
button that submits amendments is only shown while a run is generating);
an amendment submitted while a run is active succeeds, is spliced into the
live plan, and is recorded in the chat. -/
theorem amend_requires_active_run (c : Coordinator) (text : String)
    (messages : List ChatMessage) :
    (c.activeRun = none →
      (c.amend text).1 = .error .NoActiveRun
      ∧ (c.amend text).2 = c
      ∧ handleAmendMessages messages (c.amend text).1 text = messages)
    ∧ (∀ rc, c.activeRun = some rc →
      (c.amend text).1 = .ok ()
      ∧ (c.amend text).2.activeRun = some (rc.insertAmendment text)
      ∧ (∃ s ∈ (rc.insertAmendment text).plan, s.title = text)
      ∧ handleAmendMessages messages (c.amend text).1 text
          = messages
            ++ [⟨"amendment", "📝 Added to current run: \"" ++ text ++ "\""⟩])
    ∧ amendButtonShown false = false := by
  refine ⟨?_, ?_, rfl⟩
  · intro hnone
    refine ⟨?_, ?_, ?_⟩ <;> simp [Coordinator.amend, hnone, handleAmendMessages]
  · intro rc hsome
    refine ⟨?_, ?_, ?_, ?_⟩
    · simp [Coordinator.amend, hsome]
    · simp [Coordinator.amend, hsome]
    · refine ⟨⟨rc.current_step_idx + 1, "amendment", text, "amendment",
        "pending"⟩, ?_, rfl⟩
      simp [RunContext.insertAmendment]
    · simp [Coordinator.amend, hsome, handleAmendMessages]

/-- C4 witness: with no active run, amending returns `NoActiveRun`, leaves
the coordinator untouched and appends nothing to an empty chat — an
instance of the amend theorem. -/
theorem amend_requires_active_run_witness :
    (Coordinator.amend ⟨none⟩ "also cover coffee").1 = .error .NoActiveRun
    ∧ (Coordinator.amend ⟨none⟩ "also cover coffee").2 = ⟨none⟩
    ∧ handleAmendMessages []
        (Coordinator.amend ⟨none⟩ "also cover coffee").1 "also cover coffee"
        = [] :=
  (amend_requires_active_run ⟨none⟩ "also cover coffee" []).1 rfl

/-! ## UI state, `handleNewRun` and `fetchStatus` (`App.js`) -/

structure Source where
  normalized_url : String
  url : String
  title : String
  relevancy_score : JsVal

structure SourcesData where
  run_id : Option String
  updated_at : Option String
  sources : List Source

structure ReportStatus where
  status : String
  report : Option String
  error : Option String
  deriving Repr, DecidableEq

/-- `{ status: "none", report: null, error: null }` from `App.js`. -/
def reportStatusNone : ReportStatus := ⟨"none", none, none⟩

structure RunFileView where
  content : String
  truncated : Bool
  deriving Repr, DecidableEq

/-- The `App.js` component state touched by `handleNewRun` and
`fetchStatus` (the `useState` hooks of lines 16–84). -/
structure UiState where
  messages : List ChatMessage
  responseData : Option String
  error : Option String
  status : String
  isLoading : Bool
  isGenerating : Bool
  isPaused : Bool
  queueLength : Nat
  pendingUids : List Nat
  plan : Option (List PlanStep)
  planGoal : Option String
  planCurrentStep : Option Int
  agentType : Option String
  agentName : Option String
  runId : Option String
  outputDir : Option String
  activityFeed : List ActivityItem
  activitySinceId : Nat
  runFilesRunId : String
  runFiles : List String
  runFileName : String
  runFileView : RunFileView
  reportStatus : ReportStatus
  sourcesData : SourcesData
  uiSessionId : Option String

/-- From `App.js` `handleNewRun` (lines 1001–1031): the UI state is reset
"to feel like a fresh container restart" after POSTing `/new_run`. -/
def handleNewRun (st : UiState) : UiState :=
  { st with
    messages := []
    responseData := none
    error := none
    status := "Agents ready"
    isLoading := false
    isGenerating := false
    isPaused := false
    queueLength := 0
    pendingUids := []
    plan := none
    planGoal := none
    planCurrentStep := none
    runId := none
    outputDir := none
    activityFeed := []
    activitySinceId := 0
    runFilesRunId := ""
    runFiles := []
    runFileName := ""
    runFileView := ⟨"", false⟩
    reportStatus := reportStatusNone }

/-- Modelled from the spec: the backend side of `/new_run` — per §4.2,
`new_run` "invalidates the current RunContext and trace cursor but never
deletes already-written trace files". `runDirs` maps each persisted
`run_id` to its written files. -/
structure BackendStore where
  activeRun : Option RunContext
  runDirs : List (String × List String)

/-- Modelled from the spec: `/new_run` discards the RunContext only. -/
def BackendStore.newRun (b : BackendStore) : BackendStore :=
  { b with activeRun := none }

/-- Modelled from the spec: `/runs` lists the persisted runs. -/
def BackendStore.listRuns (b : BackendStore) : List String :=
  b.runDirs.map (·.1)

/-- Modelled from the spec: `/run_files` reads a persisted run's files. -/
def BackendStore.runFilesOf (b : BackendStore) (rid : String) :
    Option (List String) :=
  (b.runDirs.find? (fun p => p.1 = rid)).map (·.2)

/-- C6: `new_run` discards the RunContext and resets the transient
UI-facing state — messages, plan, queue length, run id, activity feed and
cursor, report status — but never deletes already-written trace files:
after `new_run` every previously persisted run remains listable and its
files readable, unchanged. -/
theorem new_run_resets_ui_keeps_traces (st : UiState) (b : BackendStore) :
    (handleNewRun st).messages = []
    ∧ (handleNewRun st).plan = none
    ∧ (handleNewRun st).planGoal = none
    ∧ (handleNewRun st).planCurrentStep = none
    ∧ (handleNewRun st).queueLength = 0
    ∧ (handleNewRun st).runId = none
    ∧ (handleNewRun st).outputDir = none
    ∧ (handleNewRun st).activityFeed = []
    ∧ (handleNewRun st).activitySinceId = 0
    ∧ (handleNewRun st).reportStatus = reportStatusNone
    ∧ (handleNewRun st).pendingUids = []
    ∧ b.newRun.activeRun = none
    ∧ b.newRun.runDirs = b.runDirs
    ∧ b.newRun.listRuns = b.listRuns
    ∧ (∀ rid, b.newRun.runFilesOf rid = b.runFilesOf rid) :=
  ⟨rfl, rfl, rfl, rfl, rfl, rfl, rfl, rfl, rfl, rfl, rfl, rfl, rfl, rfl,
    fun _ => rfl⟩

/-- The `/status` response shape consumed by `fetchStatus` (`App.js`
lines 965–999). -/
structure StatusResp where
  is_generating : Bool
  queue_length : Nat
  paused : Bool
  current_status : Option String
  agent_type : Option String
  agent_name : Option String
  run_id : Option String
  output_dir : Option String
  plan_goal : Option String
  plan_current_step : Option Int
  plan : Option (List PlanStep)
  ui_session_id : Option String

/-- From `App.js` `fetchStatus` (lines 965–999): the status fields are
applied; when the reported `run_id` differs from the one displayed, the
activity cursor is reset to 0, the activity feed emptied, the sources
cleared to an empty list bound to the new run id, and the report status
reset, before the new run id is stored. -/
def fetchStatusUpdate (st : UiState) (d : StatusResp) : UiState :=
  let base := { st with
    isGenerating := d.is_generating
    queueLength := d.queue_length
    isPaused := d.paused
    status := d.current_status.getD st.status
    agentType := d.agent_type
    agentName := d.agent_name }
  let st2 :=
    if d.run_id ≠ st.runId then
      { base with
        activitySinceId := 0
        activityFeed := []
        sourcesData := ⟨d.run_id, none, []⟩
        reportStatus := reportStatusNone }
    else base
  { st2 with
    runId := d.run_id
    outputDir := d.output_dir
    planGoal := d.plan_goal
    planCurrentStep := d.plan_current_step
    plan := d.plan
    uiSessionId := d.ui_session_id }

/-- From `App.js` `syncActivityCursorToLatest` (lines 700–714): the new
run's activity is read with `since_id = 0, limit = 1` and, when the
response carries a numeric `latest_id`, the cursor is set to it (`none`
models a failed or non-numeric response, which leaves the cursor alone). -/
def applySyncCursor (st : UiState) (latest : Option Nat) : UiState :=
  match latest with
  | some l => { st with activitySinceId := l }
  | none => st

/-- C7: when a status poll reports a `run_id` different from the displayed
one, the per-run projections are reset before the new run's data is shown:
the activity cursor returns to 0 and — once the sync response for the new
run's trace log arrives — is set to that log's latest id; the activity
feed is emptied; the sources list becomes the empty list bound to the new
`run_id`; and the report status is reset. -/
theorem status_run_change_resets (st : UiState) (d : StatusResp)
    (newLog : TraceLog) (hchange : d.run_id ≠ st.runId) :
    (fetchStatusUpdate st d).activityFeed = []
    ∧ (fetchStatusUpdate st d).activitySinceId = 0
    ∧ (fetchStatusUpdate st d).sourcesData.run_id = d.run_id
    ∧ (fetchStatusUpdate st d).sourcesData.sources = []
    ∧ (fetchStatusUpdate st d).reportStatus = reportStatusNone
    ∧ (fetchStatusUpdate st d).runId = d.run_id
    ∧ (applySyncCursor (fetchStatusUpdate st d)
        (some (newLog.read 0 1).latest_id)).activitySinceId
        = newLog.events.length := by
  refine ⟨?_, ?_, ?_, ?_, ?_, ?_, ?_⟩ <;>
    simp [fetchStatusUpdate, applySyncCursor, TraceLog.read, hchange]

/-- Concrete idle UI state (no run displayed) for the C7 witness. -/
def exUi : UiState :=
  { messages := []
    responseData := none
    error := none
    status := "Agents ready"
    isLoading := false
    isGenerating := false
    isPaused := false
    queueLength := 0
    pendingUids := []
    plan := none
    planGoal := none
    planCurrentStep := none
    agentType := none
    agentName := none
    runId := none
    outputDir := none
    activityFeed := [⟨"t", "print", "stale", "print", "LOG"⟩]
    activitySinceId := 7
    runFilesRunId := ""
    runFiles := []
    runFileName := ""
    runFileView := ⟨"", false⟩
    reportStatus := ⟨"done", some "old report", none⟩
    sourcesData := ⟨some "run-1", none, []⟩
    uiSessionId := none }

/-- Concrete `/status` response announcing a new run for the C7 witness. -/
def exStatusResp : StatusResp :=
  ⟨true, 0, false, none, none, none, some "run-2", none, none, none, none, none⟩

/-- C7 witness: a status poll that switches to `run-2` empties the stale
feed, zeroes the cursor, rebinds the sources to `run-2` and resets the
report status, and the sync against the concrete two-event log lands the
cursor on its latest id — an instance of the reset theorem. -/
theorem status_run_change_resets_witness :
    (fetchStatusUpdate exUi exStatusResp).activityFeed = []
    ∧ (fetchStatusUpdate exUi exStatusResp).activitySinceId = 0
    ∧ (fetchStatusUpdate exUi exStatusResp).sourcesData.run_id = some "run-2"
    ∧ (fetchStatusUpdate exUi exStatusResp).reportStatus = reportStatusNone
    ∧ (applySyncCursor (fetchStatusUpdate exUi exStatusResp)
        (some (exLog.read 0 1).latest_id)).activitySinceId = 2 := by
  have h := status_run_change_resets exUi exStatusResp exLog (by simp [exUi, exStatusResp])
  exact ⟨h.1, h.2.1, h.2.2.1, h.2.2.2.2.1, h.2.2.2.2.2.2⟩

end AgenticSeek
